import Mathlib

/-!
Verification of `system/main/shim/dumpsys.cc` (Bluetooth shim dumpsys
facility).

The source keeps one process-wide registry
`std::unordered_map<const void*, DumpsysFunction> dumpsys_functions_`
with three operations:

* `RegisterDumpsysFunction(token, func)` — asserts the token is absent,
  then inserts the pair;
* `UnregisterDumpsysFunction(token)` — asserts the token is present,
  then erases it;
* `Dump(fd, args)` — writes an empty-registry notice, or a count header
  followed by one call of every registered handler; then creates a fresh
  promise/future pair, submits a closure to the shim `Dumpsys` module and,
  if submission succeeded, waits on the future with a 1-second bound,
  asserting (fatally) that the wait ended ready; otherwise writes a
  module-absent notice.

Embedding choices: tokens and handlers are opaque identities, modelled as
naturals; the registry is an association list whose keys mirror the map's
keys (an `unordered_map` holds at most one entry per key, captured by the
`NodupKeys` invariant proved to be preserved).  A fatal
`log::assert_that` failure is modelled as `Option.none` for the registry
operations and as the `fatal` flag of `DumpResult` for `Dump`.  `Dump`'s
externally visible behaviour — what it writes to the sink, which handlers
it runs, its interaction with the module boundary — is recorded as a
trace of `DumpEvent`s; the outcome of the submission and of the bounded
wait are inputs (`submitOk`, `signalFires`), since they are decided by the
external collaborator.  The promise/future pair created per invocation is
modelled by a fresh signal identifier threaded through as a counter.
-/

namespace Dumpsys

/-- Opaque registration token (`const void*` in the source, used only for
identity). -/
abbrev Token := Nat

/-- Opaque dump handler (`DumpsysFunction`); its output is out of scope, so
only its identity is modelled. -/
abbrev Handler := Nat

/-- The registry `dumpsys_functions_`: an association list of
(token, handler) pairs mirroring the `unordered_map`. -/
abbrev Registry := List (Token × Handler)

/-- Lookup mirroring `dumpsys_functions_.find(token)`. -/
def findToken : Registry → Token → Option Handler
  | [], _ => none
  | (t, h) :: rest, tok => if t = tok then some h else findToken rest tok

/-- Membership of a token in the registry (`find(token) != end()`). -/
def member (reg : Registry) (tok : Token) : Bool :=
  (findToken reg tok).isSome

/-- Erasure mirroring `dumpsys_functions_.erase(token)`: removes the entry
with the given key (an `unordered_map` holds at most one). -/
def eraseToken : Registry → Token → Registry
  | [], _ => []
  | (t, h) :: rest, tok => if t = tok then rest else (t, h) :: eraseToken rest tok

/-- `bluetooth::shim::RegisterDumpsysFunction`: asserts
`dumpsys_functions_.find(token) == dumpsys_functions_.end()` (fatal when it
fails, modelled as `none`), then inserts `{token, func}`. -/
def RegisterDumpsysFunction (reg : Registry) (token : Token) (func : Handler) :
    Option Registry :=
  if member reg token then none
  else some ((token, func) :: reg)

/-- `bluetooth::shim::UnregisterDumpsysFunction`: asserts
`dumpsys_functions_.find(token) != dumpsys_functions_.end()` (fatal when it
fails, modelled as `none`), then erases the token. -/
def UnregisterDumpsysFunction (reg : Registry) (token : Token) :
    Option Registry :=
  if member reg token then some (eraseToken reg token)
  else none

/-- The wait bound of `future.wait_for(std::chrono::seconds(1))`. -/
def timeoutSeconds : Nat := 1

/-- Externally visible events of one `Dump` invocation, in program order. -/
inductive DumpEvent where
  /-- `dprintf(fd, "%s No registered dumpsys shim legacy targets\n", ...)`. -/
  | emptyNotice : DumpEvent
  /-- `dprintf(fd, "%s Dumping shim legacy targets:%zd\n", ..., size)`. -/
  | header (count : Nat) : DumpEvent
  /-- One call `dumpsys.second(fd)` of a registered handler. -/
  | handlerRun (func : Handler) : DumpEvent
  /-- Creation of the promise/future pair for this invocation. -/
  | createSignal (sid : Nat) : DumpEvent
  /-- The `CallOnModule<shim::Dumpsys>` submission carrying that signal. -/
  | submit (sid : Nat) : DumpEvent
  /-- `future.wait_for(seconds(1))`, recording the bound and whether the
  wait ended `ready`. -/
  | waitResult (bound : Nat) (ready : Bool) : DumpEvent
  /-- `dprintf(fd, "%s NOTE: gd dumpsys module not loaded or started\n", ...)`. -/
  | moduleAbsentNotice : DumpEvent
deriving DecidableEq

/-- Result of one `Dump` invocation: the registry as the call leaves it,
the event trace, whether the call died on the timeout assertion, and the
next fresh signal identifier. -/
structure DumpResult where
  reg : Registry
  trace : List DumpEvent
  fatal : Bool
  nextSignalId : Nat
deriving DecidableEq

/-- Local-collection phase of `Dump` (the `if (dumpsys_functions_.empty())`
block): the empty-registry notice, or the count header followed by one
`dumpsys.second(fd)` call per entry, in iteration order. -/
def localTrace (reg : Registry) : List DumpEvent :=
  if reg.isEmpty then [DumpEvent.emptyNotice]
  else DumpEvent.header reg.length :: reg.map (fun d => DumpEvent.handlerRun d.2)

/-- Module-boundary phase of `Dump`: the promise/future pair is created and
the closure submitted unconditionally; on success the bounded wait follows,
on failure the module-absent notice. -/
def moduleTrace (sid : Nat) (submitOk : Bool) (signalFires : Bool) :
    List DumpEvent :=
  if submitOk then
    [DumpEvent.createSignal sid, DumpEvent.submit sid,
     DumpEvent.waitResult timeoutSeconds signalFires]
  else
    [DumpEvent.createSignal sid, DumpEvent.submit sid,
     DumpEvent.moduleAbsentNotice]

/-- `bluetooth::shim::Dump`: empty-notice or header-plus-handlers on the
local phase, then an unconditional promise creation and module submission;
on successful submission a bounded wait whose timeout is fatal, otherwise
the module-absent notice.  `submitOk` is the boolean returned by
`CallOnModule` and `signalFires` tells whether the submitted closure
signals the promise within the bound. -/
def Dump (reg : Registry) (sid : Nat) (submitOk : Bool) (signalFires : Bool) :
    DumpResult :=
  { reg := reg
    trace := localTrace reg ++ moduleTrace sid submitOk signalFires
    fatal := submitOk && !signalFires
    nextSignalId := sid + 1 }

/-- Signal identifiers carried by the `submit` events of a trace. -/
def submittedIds (trace : List DumpEvent) : List Nat :=
  trace.filterMap fun e =>
    match e with
    | DumpEvent.submit s => some s
    | _ => none

/-- Handlers invoked along a trace, in invocation order. -/
def handlerRuns (trace : List DumpEvent) : List Handler :=
  trace.filterMap fun e =>
    match e with
    | DumpEvent.handlerRun h => some h
    | _ => none

/-- A sequence of `Dump` invocations against a fixed registry, threading
the fresh-signal counter; each element of `cfgs` gives one invocation's
(`submitOk`, `signalFires`).  Returns the traces. -/
def runDumps : Registry → Nat → List (Bool × Bool) → List (List DumpEvent)
  | _, _, [] => []
  | reg, sid, cfg :: rest =>
    let r := Dump reg sid cfg.1 cfg.2
    r.trace :: runDumps r.reg r.nextSignalId rest

/-- The registry invariant of the `unordered_map`: at most one entry per
key, i.e. the key list has no duplicates. -/
def NodupKeys (reg : Registry) : Prop :=
  (reg.map Prod.fst).Nodup

instance : DecidablePred NodupKeys := fun reg =>
  inferInstanceAs (Decidable (reg.map Prod.fst).Nodup)

/-- One registry call made by a client subsystem. -/
inductive RegistryOp where
  | registerOp (t : Token) (h : Handler) : RegistryOp
  | unregisterOp (t : Token) : RegistryOp
deriving DecidableEq

/-- The token a registry call is about. -/
def opToken : RegistryOp → Token
  | RegistryOp.registerOp t _ => t
  | RegistryOp.unregisterOp t => t

/-- Whether a registry call is a registration. -/
def isRegisterOp : RegistryOp → Bool
  | RegistryOp.registerOp _ _ => true
  | RegistryOp.unregisterOp _ => false

/-- Run one registry call; `none` is the fatal assertion. -/
def applyOp (reg : Registry) : RegistryOp → Option Registry
  | RegistryOp.registerOp t h => RegisterDumpsysFunction reg t h
  | RegistryOp.unregisterOp t => UnregisterDumpsysFunction reg t

/-- Run a sequence of registry calls; `none` as soon as one is fatal. -/
def applyOps (reg : Registry) : List RegistryOp → Option Registry
  | [] => some reg
  | op :: rest => (applyOp reg op).bind fun reg' => applyOps reg' rest

/-- The net effect of a call sequence on one token: a token is registered
exactly when the most recent call about it was a registration. -/
def netRegistered (ops : List RegistryOp) (t : Token) : Bool :=
  match ops.reverse.find? (fun op => opToken op == t) with
  | some op => isRegisterOp op
  | none => false

/-- One step of the whole system: a registry call or a `Dump`. -/
inductive SysOp where
  | opRegister (t : Token) (h : Handler) : SysOp
  | opUnregister (t : Token) : SysOp
  | opDump (sid : Nat) (submitOk : Bool) (signalFires : Bool) : SysOp
deriving DecidableEq

/-- Run one system step on the registry (`Dump` leaves it as its result's
`reg` field). -/
def applySysOp (reg : Registry) : SysOp → Option Registry
  | SysOp.opRegister t h => RegisterDumpsysFunction reg t h
  | SysOp.opUnregister t => UnregisterDumpsysFunction reg t
  | SysOp.opDump sid submitOk signalFires =>
    some (Dump reg sid submitOk signalFires).reg

/-- Run a sequence of system steps. -/
def applySysOps (reg : Registry) : List SysOp → Option Registry
  | [] => some reg
  | op :: rest => (applySysOp reg op).bind fun reg' => applySysOps reg' rest

/-! Helper lemmas about the phases of a `Dump` trace. -/

theorem dump_trace_eq (reg : Registry) (sid : Nat) (submitOk signalFires : Bool) :
    (Dump reg sid submitOk signalFires).trace
      = localTrace reg ++ moduleTrace sid submitOk signalFires := rfl

theorem mem_localTrace {reg : Registry} {e : DumpEvent} (he : e ∈ localTrace reg) :
    e = DumpEvent.emptyNotice ∨ e = DumpEvent.header reg.length ∨
      ∃ h, e = DumpEvent.handlerRun h := by
  unfold localTrace at he
  by_cases hr : reg.isEmpty
  · simp [hr] at he
    exact Or.inl he
  · simp [hr] at he
    rcases he with he | ⟨a, b, _, he⟩
    · exact Or.inr (Or.inl he)
    · exact Or.inr (Or.inr ⟨b, he.symm⟩)

theorem mem_moduleTrace {sid : Nat} {submitOk signalFires : Bool} {e : DumpEvent}
    (he : e ∈ moduleTrace sid submitOk signalFires) :
    e = DumpEvent.createSignal sid ∨ e = DumpEvent.submit sid ∨
      e = DumpEvent.waitResult timeoutSeconds signalFires ∨
      e = DumpEvent.moduleAbsentNotice := by
  unfold moduleTrace at he
  cases submitOk <;> simp at he <;> tauto

theorem mem_moduleTrace_noSubmit {sid : Nat} {signalFires : Bool} {e : DumpEvent}
    (he : e ∈ moduleTrace sid false signalFires) :
    e = DumpEvent.createSignal sid ∨ e = DumpEvent.submit sid ∨
      e = DumpEvent.moduleAbsentNotice := by
  simp [moduleTrace] at he
  tauto

theorem submit_mem_moduleTrace (sid : Nat) (submitOk signalFires : Bool) :
    DumpEvent.submit sid ∈ moduleTrace sid submitOk signalFires := by
  cases submitOk <;> simp [moduleTrace]

theorem createSignal_mem_moduleTrace (sid : Nat) (submitOk signalFires : Bool) :
    DumpEvent.createSignal sid ∈ moduleTrace sid submitOk signalFires := by
  cases submitOk <;> simp [moduleTrace]

theorem submittedIds_append (l₁ l₂ : List DumpEvent) :
    submittedIds (l₁ ++ l₂) = submittedIds l₁ ++ submittedIds l₂ :=
  List.filterMap_append l₁ l₂ _

theorem submittedIds_localTrace (reg : Registry) :
    submittedIds (localTrace reg) = [] := by
  refine List.filterMap_eq_nil_iff.mpr fun e he => ?_
  rcases mem_localTrace he with h | h | ⟨f, h⟩ <;> subst h <;> rfl

theorem submittedIds_moduleTrace (sid : Nat) (submitOk signalFires : Bool) :
    submittedIds (moduleTrace sid submitOk signalFires) = [sid] := by
  cases submitOk <;> rfl

theorem submittedIds_dump (reg : Registry) (sid : Nat) (submitOk signalFires : Bool) :
    submittedIds (Dump reg sid submitOk signalFires).trace = [sid] := by
  rw [dump_trace_eq, submittedIds_append, submittedIds_localTrace,
    submittedIds_moduleTrace]
  rfl

theorem handlerRuns_append (l₁ l₂ : List DumpEvent) :
    handlerRuns (l₁ ++ l₂) = handlerRuns l₁ ++ handlerRuns l₂ :=
  List.filterMap_append l₁ l₂ _

theorem handlerRuns_map_handlerRun (l : Registry) :
    handlerRuns (l.map fun d => DumpEvent.handlerRun d.2) = l.map Prod.snd := by
  induction l with
  | nil => rfl
  | cons a t ih =>
    simp only [List.map_cons, handlerRuns, List.filterMap_cons] at *
    exact congrArg _ ih

theorem handlerRuns_moduleTrace (sid : Nat) (submitOk signalFires : Bool) :
    handlerRuns (moduleTrace sid submitOk signalFires) = [] := by
  cases submitOk <;> rfl

theorem handlerRuns_localTrace (reg : Registry) :
    handlerRuns (localTrace reg) = reg.map Prod.snd := by
  cases reg with
  | nil => rfl
  | cons a t =>
    unfold localTrace
    rw [if_neg (by simp)]
    exact handlerRuns_map_handlerRun (a :: t)

theorem runDumps_submittedIds (reg : Registry) (sid : Nat)
    (cfgs : List (Bool × Bool)) :
    ((runDumps reg sid cfgs).map submittedIds).flatten
      = List.range' sid cfgs.length := by
  induction cfgs generalizing reg sid with
  | nil => rfl
  | cons c rest ih =>
    simp only [runDumps, List.map_cons, List.flatten_cons, submittedIds_dump,
      List.length_cons, List.range'_succ]
    rw [ih]
    rfl

/-! Claim theorems about `Dump`. -/

/-- C9: every `Dump` call leaves the registry unchanged — `Dump` only reads
`dumpsys_functions_`, never inserts into or erases from it. -/
theorem Dump_preserves_registry (reg : Registry) (sid : Nat)
    (submitOk signalFires : Bool) :
    (Dump reg sid submitOk signalFires).reg = reg := rfl

/-- C1: when submission succeeds, `Dump` blocks on the completion signal
with the fixed 1-second bound and returns normally exactly when the signal
fires within that bound; if the closure never signals, the call is fatal
(the timeout assertion fires). -/
theorem Dump_fatal_iff_signal_missed (reg : Registry) (sid : Nat)
    (signalFires : Bool) :
    ((Dump reg sid true signalFires).fatal = false ↔ signalFires = true)
    ∧ DumpEvent.waitResult timeoutSeconds signalFires
        ∈ (Dump reg sid true signalFires).trace
    ∧ timeoutSeconds = 1 := by
  refine ⟨?_, ?_, rfl⟩
  · cases signalFires <;> simp [Dump]
  · rw [dump_trace_eq]
    exact List.mem_append_right _ (by simp [moduleTrace])

/-- C4: when submission fails, `Dump` writes exactly one module-absent
notice, never waits on the completion signal, and completes non-fatally. -/
theorem Dump_module_absent_nonfatal (reg : Registry) (sid : Nat)
    (signalFires : Bool) :
    (Dump reg sid false signalFires).fatal = false
    ∧ ((Dump reg sid false signalFires).trace.countP
          fun e => e == DumpEvent.moduleAbsentNotice) = 1
    ∧ ∀ (bound : Nat) (ready : Bool),
        DumpEvent.waitResult bound ready
          ∉ (Dump reg sid false signalFires).trace := by
  refine ⟨rfl, ?_, ?_⟩
  · rw [dump_trace_eq, List.countP_append]
    have h1 : ((localTrace reg).countP
        fun e => e == DumpEvent.moduleAbsentNotice) = 0 := by
      refine List.countP_eq_zero.mpr fun e he => ?_
      rcases mem_localTrace he with h | h | ⟨f, h⟩ <;> subst h <;> simp
    rw [h1]
    rfl
  · intro bound ready hmem
    rw [dump_trace_eq, List.mem_append] at hmem
    rcases hmem with hmem | hmem
    · rcases mem_localTrace hmem with h | h | ⟨f, h⟩ <;> simp at h
    · rcases mem_moduleTrace_noSubmit hmem with h | h | h <;> simp at h

/-- C6: `Dump` on an empty registry writes the empty-registry notice as its
first and only local line, invokes no handler, and still proceeds to the
module submission. -/
theorem Dump_empty_registry_notice (sid : Nat) (submitOk signalFires : Bool) :
    ((Dump [] sid submitOk signalFires).trace.countP
        fun e => e == DumpEvent.emptyNotice) = 1
    ∧ (Dump [] sid submitOk signalFires).trace.head?
        = some DumpEvent.emptyNotice
    ∧ (∀ h : Handler,
        DumpEvent.handlerRun h ∉ (Dump [] sid submitOk signalFires).trace)
    ∧ DumpEvent.submit sid ∈ (Dump [] sid submitOk signalFires).trace := by
  refine ⟨?_, rfl, ?_, ?_⟩
  · rw [dump_trace_eq, List.countP_append]
    have h2 : ((moduleTrace sid submitOk signalFires).countP
        fun e => e == DumpEvent.emptyNotice) = 0 := by
      refine List.countP_eq_zero.mpr fun e he => ?_
      rcases mem_moduleTrace he with h | h | h | h <;> subst h <;> simp
    rw [h2]
    rfl
  · intro h hmem
    rw [dump_trace_eq, List.mem_append] at hmem
    rcases hmem with hmem | hmem
    · simp [localTrace] at hmem
    · rcases mem_moduleTrace hmem with hh | hh | hh | hh <;> simp at hh
  · rw [dump_trace_eq]
    exact List.mem_append_right _ (submit_mem_moduleTrace sid submitOk signalFires)

/-- C10: every `Dump` invocation submits to the module boundary exactly
once, with the completion signal created freshly in that invocation,
regardless of the registry's contents; across any sequence of invocations
no signal is ever reused. -/
theorem Dump_single_fresh_submission (reg : Registry) (sid : Nat)
    (submitOk signalFires : Bool) :
    submittedIds (Dump reg sid submitOk signalFires).trace = [sid]
    ∧ DumpEvent.createSignal sid ∈ (Dump reg sid submitOk signalFires).trace
    ∧ (Dump reg sid submitOk signalFires).nextSignalId = sid + 1
    ∧ ∀ (r0 : Registry) (s0 : Nat) (cfgs : List (Bool × Bool)),
        (((runDumps r0 s0 cfgs).map submittedIds).flatten).Nodup := by
  refine ⟨submittedIds_dump reg sid submitOk signalFires, ?_, rfl, ?_⟩
  · rw [dump_trace_eq]
    exact List.mem_append_right _
      (createSignal_mem_moduleTrace sid submitOk signalFires)
  · intro r0 s0 cfgs
    rw [runDumps_submittedIds]
    exact List.nodup_range' s0 cfgs.length 1 (by norm_num)

/-- C2: on a non-empty registry with N entries, `Dump` first writes the
count header, then runs every registered handler exactly once (N handler
invocations in total), all before the module-boundary submission. -/
theorem Dump_nonempty_runs_all_handlers_first (reg : Registry) (sid : Nat)
    (submitOk signalFires : Bool) (hne : reg ≠ []) :
    ∃ rest : List DumpEvent,
      (Dump reg sid submitOk signalFires).trace
        = DumpEvent.header reg.length
            :: (reg.map (fun d => DumpEvent.handlerRun d.2) ++ rest)
      ∧ handlerRuns (Dump reg sid submitOk signalFires).trace = reg.map Prod.snd
      ∧ (handlerRuns (Dump reg sid submitOk signalFires).trace).length = reg.length
      ∧ (∀ h : Handler, DumpEvent.handlerRun h ∉ rest)
      ∧ DumpEvent.submit sid ∈ rest := by
  have hemp : reg.isEmpty = false := by
    cases reg with
    | nil => exact absurd rfl hne
    | cons a t => rfl
  refine ⟨moduleTrace sid submitOk signalFires, ?_, ?_, ?_, ?_, ?_⟩
  · rw [dump_trace_eq]
    simp [localTrace, hemp]
  · rw [dump_trace_eq, handlerRuns_append, handlerRuns_moduleTrace,
      List.append_nil]
    exact handlerRuns_localTrace reg
  · rw [dump_trace_eq, handlerRuns_append, handlerRuns_moduleTrace,
      List.append_nil, handlerRuns_localTrace]
    exact List.length_map reg Prod.snd
  · intro h hmem
    rcases mem_moduleTrace hmem with hh | hh | hh | hh <;> simp at hh
  · exact submit_mem_moduleTrace sid submitOk signalFires

/-! Registry lemmas. -/

theorem member_cons (k : Token) (h : Handler) (reg : Registry) (t : Token) :
    member ((k, h) :: reg) t = if k = t then true else member reg t := by
  simp only [member, findToken]
  by_cases hk : k = t
  · rw [if_pos hk, if_pos hk]
    rfl
  · rw [if_neg hk, if_neg hk]

theorem member_iff_mem_keys (reg : Registry) (t : Token) :
    member reg t = true ↔ t ∈ reg.map Prod.fst := by
  induction reg with
  | nil => simp [member, findToken]
  | cons a rest ih =>
    obtain ⟨k, h⟩ := a
    by_cases hk : k = t
    · subst hk
      simp [member_cons]
    · rw [member_cons, if_neg hk]
      simp [ih, hk, Ne.symm hk]

theorem nodupKeys_cons (k : Token) (h : Handler) (rest : Registry) :
    NodupKeys ((k, h) :: rest) ↔ k ∉ rest.map Prod.fst ∧ NodupKeys rest := by
  simp [NodupKeys]

theorem member_registerOk {reg : Registry} {t : Token} {h : Handler}
    {reg' : Registry} (hr : RegisterDumpsysFunction reg t h = some reg') :
    member reg t = false ∧ reg' = (t, h) :: reg := by
  unfold RegisterDumpsysFunction at hr
  by_cases hm : member reg t = true
  · rw [if_pos hm] at hr
    exact absurd hr (by simp)
  · rw [if_neg hm] at hr
    injection hr with hr'
    refine ⟨?_, hr'.symm⟩
    cases hmb : member reg t
    · rfl
    · exact absurd hmb hm

theorem member_unregisterOk {reg : Registry} {t : Token} {reg' : Registry}
    (hr : UnregisterDumpsysFunction reg t = some reg') :
    member reg t = true ∧ reg' = eraseToken reg t := by
  unfold UnregisterDumpsysFunction at hr
  by_cases hm : member reg t = true
  · rw [if_pos hm] at hr
    injection hr with hr'
    exact ⟨hm, hr'.symm⟩
  · rw [if_neg hm] at hr
    exact absurd hr (by simp)

theorem eraseToken_keys_sublist (reg : Registry) (tok : Token) :
    ((eraseToken reg tok).map Prod.fst).Sublist (reg.map Prod.fst) := by
  induction reg with
  | nil => exact List.Sublist.refl _
  | cons a rest ih =>
    obtain ⟨k, h⟩ := a
    unfold eraseToken
    by_cases hk : k = tok
    · rw [if_pos hk]
      exact List.sublist_cons_self k (rest.map Prod.fst)
    · rw [if_neg hk]
      simpa using ih.cons₂ k

theorem nodupKeys_eraseToken {reg : Registry} (hnd : NodupKeys reg)
    (tok : Token) : NodupKeys (eraseToken reg tok) :=
  List.Nodup.sublist (eraseToken_keys_sublist reg tok) hnd

theorem member_eraseToken {reg : Registry} (hnd : NodupKeys reg) (tok t : Token) :
    member (eraseToken reg tok) t = if tok = t then false else member reg t := by
  induction reg with
  | nil =>
    by_cases ht : tok = t <;> simp [eraseToken, member, findToken, ht]
  | cons a rest ih =>
    obtain ⟨k, h⟩ := a
    rw [nodupKeys_cons] at hnd
    unfold eraseToken
    by_cases hk : k = tok
    · subst hk
      rw [if_pos rfl]
      by_cases ht : k = t
      · subst ht
        rw [if_pos rfl]
        cases hmem : member rest k
        · rfl
        · exact absurd ((member_iff_mem_keys rest k).mp hmem) hnd.1
      · rw [if_neg ht, member_cons, if_neg ht]
    · rw [if_neg hk, member_cons, member_cons, ih hnd.2]
      split_ifs <;> simp_all

theorem applyOps_singleton (reg : Registry) (op : RegistryOp) :
    applyOps reg [op] = applyOp reg op := by
  cases h : applyOp reg op <;> simp [applyOps, h]

theorem applyOps_append (reg0 : Registry) (l1 l2 : List RegistryOp) :
    applyOps reg0 (l1 ++ l2) = (applyOps reg0 l1).bind fun r => applyOps r l2 := by
  induction l1 generalizing reg0 with
  | nil => simp [applyOps]
  | cons op rest ih =>
    cases h : applyOp reg0 op <;> simp [applyOps, h, ih]

theorem applyOp_nodupKeys {reg reg' : Registry} {op : RegistryOp}
    (hnd : NodupKeys reg) (h : applyOp reg op = some reg') : NodupKeys reg' := by
  cases op with
  | registerOp t hf =>
    obtain ⟨hm, rfl⟩ := member_registerOk h
    refine (nodupKeys_cons t hf reg).mpr ⟨fun hmem => ?_, hnd⟩
    rw [← member_iff_mem_keys, hm] at hmem
    exact absurd hmem (by simp)
  | unregisterOp t =>
    obtain ⟨hm, rfl⟩ := member_unregisterOk h
    exact nodupKeys_eraseToken hnd t

theorem applyOps_nodupKeys (ops : List RegistryOp) :
    ∀ (reg0 r : Registry), NodupKeys reg0 → applyOps reg0 ops = some r →
      NodupKeys r := by
  induction ops with
  | nil =>
    intro reg0 r hnd h
    injection h with h'
    exact h' ▸ hnd
  | cons op rest ih =>
    intro reg0 r hnd h
    cases hop : applyOp reg0 op with
    | none => rw [applyOps, hop] at h; simp at h
    | some reg' =>
      rw [applyOps, hop] at h
      exact ih reg' r (applyOp_nodupKeys hnd hop) h

theorem applyOps_member (ops : List RegistryOp) (reg0 : Registry)
    (hnd : NodupKeys reg0) (t : Token) :
    ∀ (r : Registry), applyOps reg0 ops = some r →
      member r t
        = match ops.reverse.find? (fun op => opToken op == t) with
          | some op => isRegisterOp op
          | none => member reg0 t := by
  induction ops using List.reverseRecOn with
  | nil =>
    intro r hops
    injection hops with h'
    subst h'
    simp
  | append_singleton l op ih =>
    intro r hops
    rw [applyOps_append] at hops
    cases h1 : applyOps reg0 l with
    | none => rw [h1] at hops; simp at hops
    | some r1 =>
      rw [h1] at hops
      simp only [Option.some_bind] at hops
      rw [applyOps_singleton] at hops
      have hnd1 : NodupKeys r1 := applyOps_nodupKeys l reg0 r1 hnd h1
      have hrev : (l ++ [op]).reverse = op :: l.reverse := by simp
      rw [hrev]
      by_cases hpt : opToken op = t
      · rw [List.find?_cons_of_pos _ (by simp [hpt])]
        cases op with
        | registerOp tk hf =>
          obtain ⟨hm, rfl⟩ := member_registerOk hops
          have hpt' : tk = t := hpt
          rw [member_cons, if_pos hpt']
          rfl
        | unregisterOp tk =>
          obtain ⟨hm, rfl⟩ := member_unregisterOk hops
          have hpt' : tk = t := hpt
          rw [member_eraseToken hnd1, if_pos hpt']
          rfl
      · rw [List.find?_cons_of_neg _ (by simp [hpt])]
        rw [← ih r1 h1]
        cases op with
        | registerOp tk hf =>
          obtain ⟨hm, rfl⟩ := member_registerOk hops
          have hpt' : ¬tk = t := hpt
          rw [member_cons, if_neg hpt']
        | unregisterOp tk =>
          obtain ⟨hm, rfl⟩ := member_unregisterOk hops
          have hpt' : ¬tk = t := hpt
          rw [member_eraseToken hnd1, if_neg hpt']

theorem applySysOp_nodupKeys {reg reg' : Registry} {op : SysOp}
    (hnd : NodupKeys reg) (h : applySysOp reg op = some reg') :
    NodupKeys reg' := by
  cases op with
  | opRegister t hf => exact @applyOp_nodupKeys reg reg' (RegistryOp.registerOp t hf) hnd h
  | opUnregister t => exact @applyOp_nodupKeys reg reg' (RegistryOp.unregisterOp t) hnd h
  | opDump sid submitOk signalFires =>
    injection h with h'
    exact h' ▸ hnd

theorem applySysOps_nodupKeys (ops : List SysOp) :
    ∀ (reg0 r : Registry), NodupKeys reg0 → applySysOps reg0 ops = some r →
      NodupKeys r := by
  induction ops with
  | nil =>
    intro reg0 r hnd h
    injection h with h'
    exact h' ▸ hnd
  | cons op rest ih =>
    intro reg0 r hnd h
    cases hop : applySysOp reg0 op with
    | none => rw [applySysOps, hop] at h; simp at h
    | some reg' =>
      rw [applySysOps, hop] at h
      exact ih reg' r (applySysOp_nodupKeys hnd hop) h

theorem countP_keys_le_one {reg : Registry} (hnd : NodupKeys reg) (t : Token) :
    (reg.countP fun p => p.1 == t) ≤ 1 := by
  have h1 : (reg.countP fun p => p.1 == t)
      = ((reg.map Prod.fst).countP fun k => k == t) := by
    rw [List.countP_map]
    rfl
  rw [h1]
  have h2 := List.nodup_iff_count_le_one.mp hnd t
  simpa [List.count] using h2

/-! Claim theorems about the registry. -/

/-- C3: registering an already-present token fails the fatal assertion, and
unregistering an absent token fails the fatal assertion; both abort
(modelled as `none`), leaving no registry state to continue from. -/
theorem register_unregister_precondition_fatal (reg : Registry) (t : Token)
    (h : Handler) :
    (member reg t = true → RegisterDumpsysFunction reg t h = none)
    ∧ (member reg t = false → UnregisterDumpsysFunction reg t = none) := by
  constructor
  · intro hm
    unfold RegisterDumpsysFunction
    rw [if_pos hm]
  · intro hm
    unfold UnregisterDumpsysFunction
    rw [if_neg (by simp [hm])]

/-- Witness for C3 on concrete registries. -/
theorem register_unregister_precondition_fatal_witness :
    RegisterDumpsysFunction [(1, 10)] 1 5 = none
    ∧ UnregisterDumpsysFunction [] 1 = none :=
  ⟨(register_unregister_precondition_fatal [(1, 10)] 1 5).1 (by decide),
   (register_unregister_precondition_fatal [] 1 5).2 (by decide)⟩

/-- C5: after any successful sequence of register/unregister calls starting
from the empty registry, a token is present exactly when the most recent
call about it in the sequence was a registration. -/
theorem registry_membership_net_effect (ops : List RegistryOp) (r : Registry)
    (hops : applyOps [] ops = some r) (t : Token) :
    member r t = netRegistered ops t := by
  rw [applyOps_member ops [] (by simp [NodupKeys]) t r hops]
  unfold netRegistered
  cases ops.reverse.find? (fun op => opToken op == t) <;> rfl

/-- Witness for C5 on a concrete register/register/unregister sequence. -/
theorem registry_membership_net_effect_witness :
    applyOps [] [RegistryOp.registerOp 1 10, RegistryOp.registerOp 2 20,
        RegistryOp.unregisterOp 1] = some [(2, 20)]
    ∧ member [(2, 20)] 1
        = netRegistered [RegistryOp.registerOp 1 10, RegistryOp.registerOp 2 20,
            RegistryOp.unregisterOp 1] 1 :=
  ⟨by decide,
   registry_membership_net_effect
     [RegistryOp.registerOp 1 10, RegistryOp.registerOp 2 20,
      RegistryOp.unregisterOp 1] [(2, 20)] (by decide) 1⟩

/-- C7: every reachable registry state — under any sequence of successful
register/unregister calls and `Dump` calls — keeps at most one handler per
token: the key list has no duplicates, so any token has at most one
entry. -/
theorem registry_at_most_one_handler (ops : List SysOp) (r : Registry)
    (hops : applySysOps [] ops = some r) (t : Token) :
    NodupKeys r ∧ (r.countP fun p => p.1 == t) ≤ 1 := by
  have hnd : NodupKeys r :=
    applySysOps_nodupKeys ops [] r (by simp [NodupKeys]) hops
  exact ⟨hnd, countP_keys_le_one hnd t⟩

/-- Witness for C7 on a concrete register/dump/register/unregister
sequence. -/
theorem registry_at_most_one_handler_witness :
    applySysOps [] [SysOp.opRegister 1 10, SysOp.opDump 0 true true,
        SysOp.opRegister 2 20, SysOp.opUnregister 1] = some [(2, 20)]
    ∧ NodupKeys [(2, 20)]
    ∧ (([(2, 20)] : Registry).countP fun p => p.1 == 1) ≤ 1 := by
  refine ⟨by decide, ?_⟩
  exact registry_at_most_one_handler
    [SysOp.opRegister 1 10, SysOp.opDump 0 true true,
     SysOp.opRegister 2 20, SysOp.opUnregister 1] [(2, 20)] (by decide) 1

/-- Witness for C2 at a concrete one-entry registry. -/
theorem Dump_nonempty_runs_all_handlers_first_witness :
    ∃ rest : List DumpEvent,
      (Dump [(1, 10)] 0 true true).trace
        = DumpEvent.header ([(1, 10)] : Registry).length
            :: (([(1, 10)] : Registry).map (fun d => DumpEvent.handlerRun d.2) ++ rest)
      ∧ handlerRuns (Dump [(1, 10)] 0 true true).trace
          = ([(1, 10)] : Registry).map Prod.snd
      ∧ (handlerRuns (Dump [(1, 10)] 0 true true).trace).length
          = ([(1, 10)] : Registry).length
      ∧ (∀ h : Handler, DumpEvent.handlerRun h ∉ rest)
      ∧ DumpEvent.submit 0 ∈ rest :=
  Dump_nonempty_runs_all_handlers_first [(1, 10)] 0 true true (by decide)

end Dumpsys
